import Mathlib

/-!
Verification of the request-admission (rate limiting) engine and the
cache-versioning protocol of the api-portfolio backend.

The rate limiter is embedded from `src/middlewares/rateLimiter.middlewar.ts`
(`src/unnamed/part_009`): `checkInMemoryRateLimit`, `getLimitsContext` and the
`rateLimiter` middleware.  The cache protocol is embedded from
`src/services/blog/Blog.service.ts` (`deleteCacheBySlug`, `deletePostBySlug`,
`clearAllCache`) together with `src/constants/redis.constant.ts`.

Times are wall-clock milliseconds (`Date.now()`), modelled as `Nat`.
Redis and the in-process fallback map are modelled as explicit states that
every operation threads through.
-/

namespace Portfolio

/-- `LimitContext` from rateLimiter.middlewar.ts (lines 39-45). -/
structure LimitContext where
  key : String
  windowSeconds : Nat
  maxRequests : Nat
  adminBypass : Bool
  stopInRedisDown : Bool
  deriving DecidableEq, Repr

/-- `MemoryCounter` from rateLimiter.middlewar.ts (lines 47-50):
one entry of the in-process fallback map. -/
structure MemoryCounter where
  count : Nat
  expiresAt : Nat
  deriving DecidableEq, Repr

/-- The process-wide `memoryRateStore` map, as a partial function from keys. -/
abbrev MemStore := String → Option MemoryCounter

/-- `Map.set` on the fallback map. -/
def memSet (mem : MemStore) (key : String) (c : MemoryCounter) : MemStore :=
  fun s => if s = key then some c else mem s

/-- The record returned by `checkInMemoryRateLimit`. -/
structure CheckResult where
  exceeded : Bool
  count : Nat
  remaining : Nat
  retryAfter : Nat
  deriving DecidableEq, Repr

/-- `checkInMemoryRateLimit` (rateLimiter.middlewar.ts lines 54-84).
`Math.max(0, maxRequests - count)` is truncated `Nat` subtraction;
`Math.ceil((expiresAt - now) / 1000)` is `(expiresAt - now + 999) / 1000`
(the live branch has `now < expiresAt`). Returns the result record and the
updated map. -/
def checkInMemoryRateLimit (mem : MemStore) (key : String)
    (windowSeconds maxRequests : Nat) (now : Nat) : CheckResult × MemStore :=
  let freshCounter : MemoryCounter := { count := 1, expiresAt := now + windowSeconds * 1000 }
  let freshResult : CheckResult :=
    { exceeded := false, count := 1, remaining := maxRequests - 1, retryAfter := windowSeconds }
  match mem key with
  | none => (freshResult, memSet mem key freshCounter)
  | some current =>
    if current.expiresAt ≤ now then
      (freshResult, memSet mem key freshCounter)
    else
      let c : MemoryCounter := { current with count := current.count + 1 }
      let retryAfter := max 1 ((current.expiresAt - now + 999) / 1000)
      let remaining := maxRequests - c.count
      ({ exceeded := decide (maxRequests < c.count), count := c.count,
         remaining := remaining, retryAfter := retryAfter },
       memSet mem key c)

/-- One Redis value used by the limiter: an integer with an optional
expiry instant (ms).  `expiresAt = none` means no TTL is armed. -/
structure RedisEntry where
  value : Nat
  expiresAt : Option Nat
  deriving DecidableEq, Repr

/-- The shared counter store. -/
abbrev RedisState := String → Option RedisEntry

/-- A key is live when it has no TTL or its expiry instant is in the future;
an expired key behaves exactly like a missing one. -/
def entryAlive (e : RedisEntry) (now : Nat) : Bool :=
  match e.expiresAt with
  | none => true
  | some t => now < t

/-- Redis `INCR`: an absent or expired key is created at value 1 with no TTL;
a live key keeps its TTL and its value is incremented.  Returns the
post-increment value. -/
def redisIncr (st : RedisState) (k : String) (now : Nat) : Nat × RedisState :=
  match st k with
  | some e =>
    if entryAlive e now then
      (e.value + 1, fun s => if s = k then some { e with value := e.value + 1 } else st s)
    else
      (1, fun s => if s = k then some { value := 1, expiresAt := none } else st s)
  | none => (1, fun s => if s = k then some { value := 1, expiresAt := none } else st s)

/-- Redis `EXPIRE key seconds`: arms the TTL of a live key; a no-op on a
missing or expired key. -/
def redisExpire (st : RedisState) (k : String) (seconds : Nat) (now : Nat) : RedisState :=
  match st k with
  | some e =>
    if entryAlive e now then
      fun s => if s = k then some { e with expiresAt := some (now + seconds * 1000) } else st s
    else st
  | none => st

/-- Redis `TTL`: remaining seconds (rounded to the nearest second, as Redis
does from the millisecond TTL), `-1` for a key without TTL, `-2` for a
missing or expired key. -/
def redisTtl (st : RedisState) (k : String) (now : Nat) : Int :=
  match st k with
  | some e =>
    if entryAlive e now then
      match e.expiresAt with
      | some t => ((t - now + 500) / 1000 : Nat)
      | none => -1
    else -2
  | none => -2

/-- The shared-store connection as the middleware sees it:
`down` models `!redis || !redis.isReady`; `up st incrFails` models a ready
client over state `st`, where `incrFails = true` injects the one kind of
fault the claims need — `await redis.incr(...)` throwing mid-request. -/
inductive RedisConn where
  | down : RedisConn
  | up (st : RedisState) (incrFails : Bool) : RedisConn

/-- The state behind a connection, when there is one. -/
def RedisConn.stateOf : RedisConn → Option RedisState
  | .down => none
  | .up st _ => some st

/-- Inputs of the admin-bypass block (rateLimiter.middlewar.ts lines 222-237):
the bearer token extracted from the Authorization header, and the outcomes of
the two awaited checks.

`revocation` — result of `AuthService.isTokenRevoked(token, { failOpen: true })`.
Modelled from the spec: `Auth.service.ts` is not under src/ (only callers are).
Spec §6: the token is checked against a revocation list; "Revocation-list
check failure must fail open into normal rate limiting, never into bypass" —
so a failed lookup is the `.error` case, which the middleware's own
`catch {}` turns into a fall-through to normal rate limiting.

`verify` — result of `jwt.verify(token, secret)`: the decoded user on
success, `.error` when verification throws. -/
structure BypassEnv where
  token : Option String
  revocation : Except Unit Bool
  verify : Except Unit String

/-- The outcome of one admission check, as the middleware terminates:
`bypassAllowed` — `return next()` from the admin-bypass block;
`allowNext limit remaining memFallback` — `return next()` after setting the
`X-RateLimit-*` headers (`memFallback` records whether the
`X-RateLimit-Store: memory-fallback` header was set, i.e. the local path);
`deny429 retryAfter` — `res.status(429).json({... retryAfter})`;
`deny503` — `res.status(503).json({...})`;
`caughtNext` — the outer `catch`: the error is logged and `next()` is called. -/
inductive Decision where
  | bypassAllowed : Decision
  | allowNext (limit remaining : Nat) (memFallback : Bool) : Decision
  | deny429 (retryAfter : Int) : Decision
  | deny503 : Decision
  | caughtNext : Decision
  deriving DecidableEq, Repr

/-- The key of the local fallback counter: `mem-rate:${routeKey}:${ip}`. -/
def memRateKey (routeKey ip : String) : String :=
  "mem-rate:" ++ routeKey ++ ":" ++ ip

/-- The shared counter key: `rate:${routeKey}:${ip}` (spec §6 format). -/
def rateKey (routeKey ip : String) : String :=
  "rate:" ++ routeKey ++ ":" ++ ip

/-- rateLimiter.middlewar.ts lines 239-316: everything after the bypass
block.  Given the resolved context, the client ip, the connection, the
fallback map and the clock, produces the decision, the new fallback map and
the new shared-store state (when a connection exists). -/
def afterBypass (ctx : LimitContext) (ip : String) (conn : RedisConn)
    (mem : MemStore) (now : Nat) : Decision × MemStore × Option RedisState :=
  match conn with
  | .down =>
    if ctx.stopInRedisDown then
      (.deny503, mem, none)
    else
      let memoryKey := memRateKey ctx.key ip
      let res := checkInMemoryRateLimit mem memoryKey ctx.windowSeconds ctx.maxRequests now
      if res.1.exceeded then
        (.deny429 (res.1.retryAfter : Int), res.2, none)
      else
        (.allowNext ctx.maxRequests res.1.remaining true, res.2, none)
  | .up st incrFails =>
    if incrFails then
      -- `await redis.incr` throws; the outer catch logs and calls next().
      (.caughtNext, mem, some st)
    else
      let redisKey := rateKey ctx.key ip
      let r := redisIncr st redisKey now
      let current := r.1
      let st2 := if current = 1 then redisExpire r.2 redisKey ctx.windowSeconds now else r.2
      if ctx.maxRequests < current then
        (.deny429 (redisTtl st2 redisKey now), mem, some st2)
      else
        (.allowNext ctx.maxRequests (ctx.maxRequests - current) false, mem, some st2)

/-- The `rateLimiter` middleware (rateLimiter.middlewar.ts lines 209-321) for
one request, after `getLimitsContext` has resolved `ctx`.  The admin-bypass
block runs first: with `adminBypass` set and a token present, a successful
not-revoked lookup followed by a successful `jwt.verify` returns `next()`
immediately; a revoked token, a thrown lookup or a thrown verification falls
through (the inner `catch {}`), as does an absent token. -/
def rateLimiter (ctx : LimitContext) (env : BypassEnv) (ip : String)
    (conn : RedisConn) (mem : MemStore) (now : Nat) :
    Decision × MemStore × Option RedisState :=
  if ctx.adminBypass then
    match env.token with
    | some _ =>
      match env.revocation with
      | .ok false =>
        match env.verify with
        | .ok _ => (.bypassAllowed, mem, conn.stateOf)
        | .error _ => afterBypass ctx ip conn mem now
      | .ok true => afterBypass ctx ip conn mem now
      | .error _ => afterBypass ctx ip conn mem now
    | none => afterBypass ctx ip conn mem now
  else afterBypass ctx ip conn mem now

/-- Whether the bypass block grants the request (reaches its `return next()`). -/
def bypassGranted (ctx : LimitContext) (env : BypassEnv) : Bool :=
  ctx.adminBypass &&
    (match env.token, env.revocation, env.verify with
     | some _, .ok false, .ok _ => true
     | _, _, _ => false)

/-- The `X-RateLimit-*` headers set on a decision's response
(rateLimiter.middlewar.ts lines 275-277 and 313-314): both counters on every
allowed response, plus the store marker on the fallback path; the 429, 503,
bypass and catch paths return without any `res.set`. -/
def headersOf : Decision → List (String × String)
  | .allowNext limit remaining memFallback =>
    [("X-RateLimit-Limit", toString limit), ("X-RateLimit-Remaining", toString remaining)] ++
      (if memFallback then [("X-RateLimit-Store", "memory-fallback")] else [])
  | _ => []

/-- `mem k` holds no live record at `now` (absent, or `expiresAt <= now`). -/
def memDeadB (mem : MemStore) (k : String) (now : Nat) : Bool :=
  match mem k with
  | none => true
  | some c => c.expiresAt ≤ now

/-- `st k` holds no live entry at `now` (absent or expired). -/
def redisDeadB (st : RedisState) (k : String) (now : Nat) : Bool :=
  match st k with
  | none => true
  | some e => !entryAlive e now

/-- One entry of `rateConfig.routes` (rateLimiter.middlewar.ts lines 17-26).
The nested `match: { url, method? }` object is flattened into the `url` and
`method` fields (`match` is a Lean keyword). -/
structure RouteConfig where
  url : String
  method : Option String
  windowSeconds : Option Nat
  maxRequests : Option Nat
  adminBypass : Option Bool
  stopInRedisDown : Option Bool
  deriving DecidableEq, Repr

/-- The `default` block of the rate configuration (lines 30-35). -/
structure DefaultConfig where
  windowSeconds : Nat
  maxRequests : Nat
  adminBypass : Option Bool
  stopInRedisDown : Option Bool
  deriving DecidableEq, Repr

/-- `RateConfig` (lines 28-37); `routes` is a `Record<string, RouteConfig>`,
iterated in insertion order, hence an association list. -/
structure RateConfig where
  enabled : Option Bool
  default : Option DefaultConfig
  routes : List (String × RouteConfig)
  deriving DecidableEq, Repr

/-- The module-level `rateConfig` initializer (lines 86-93): reads
`cfg.rateLimiter` (or `null`), falling back to `null` if reading the config
throws.  It performs no validation of the route patterns. -/
def loadRateConfig (raw : Except Unit (Option RateConfig)) : Option RateConfig :=
  match raw with
  | .ok c => c
  | .error _ => none

/-- `.toUpperCase()` on a method string, character by character. -/
def strToUpper (s : String) : String := String.mk (s.data.map Char.toUpper)

/-- Modelled from the spec: `normalizeUrl` (src/utils/url.helper.ts) is not
under src/.  Spec §4.1: "path comparison happens after normalizing trailing
slashes and stripping the query string" — drop a trailing slash, keeping the
bare root path. -/
def normalizeUrl (u : String) : String :=
  if u.data.getLast? = some '/' ∧ u ≠ "/" then String.mk u.data.dropLast else u

/-- `(req.originalUrl || req.url).split('?')[0]` (line 147): everything
before the first `'?'`. -/
def stripQuery (u : String) : String :=
  String.mk (u.data.takeWhile (fun c => c ≠ '?'))

/-- The route loop of `getLimitsContext` (lines 151-181).  `matchUrl pattern
path` stands for `match(pattern, {decode})(path)` from path-to-regexp: `.ok b`
when the pattern compiles and does (`b = true`) or does not match, `.error`
when the pattern is invalid and the compiler throws — in which case the entry
is logged and skipped, and iteration continues. -/
def resolveRoute (matchUrl : String → String → Except Unit Bool)
    (currentUrl currentMethod : String) :
    List (String × RouteConfig) → Option (String × RouteConfig)
  | [] => none
  | (k, rc) :: rest =>
    let configUrl := normalizeUrl rc.url
    let configMethod := strToUpper (rc.method.getD "GET")
    if configMethod ≠ currentMethod then
      resolveRoute matchUrl currentUrl currentMethod rest
    else
      match matchUrl configUrl currentUrl with
      | .ok true => some (k, rc)
      | .ok false => resolveRoute matchUrl currentUrl currentMethod rest
      | .error _ => resolveRoute matchUrl currentUrl currentMethod rest

/-- The resolved context of a matched route (rateLimiter.middlewar.ts lines
164-174): per-route override, then table default, then env/hard-coded
fallback. -/
def routeContext (cfg : RateConfig) (envWindowSeconds envMaxRequests : Nat)
    (defaultStop : Bool) (k : String) (rc : RouteConfig) : LimitContext :=
  { key := k,
    windowSeconds := rc.windowSeconds.getD
      ((cfg.default.map DefaultConfig.windowSeconds).getD envWindowSeconds),
    maxRequests := rc.maxRequests.getD
      ((cfg.default.map DefaultConfig.maxRequests).getD envMaxRequests),
    adminBypass := rc.adminBypass.getD
      ((cfg.default.bind DefaultConfig.adminBypass).getD false),
    stopInRedisDown := rc.stopInRedisDown.getD
      ((cfg.default.bind DefaultConfig.stopInRedisDown).getD defaultStop) }

/-- The `default:`-bucket fallback of `getLimitsContext` (lines 183-195). -/
def defaultContext (rateConfig : Option RateConfig)
    (envWindowSeconds envMaxRequests : Nat) (currentUrl : String)
    (defaultStop : Bool) : LimitContext :=
  match rateConfig with
  | some cfg =>
    match cfg.default with
    | some d =>
      { key := "default:" ++ currentUrl,
        windowSeconds := d.windowSeconds,
        maxRequests := d.maxRequests,
        adminBypass := d.adminBypass.getD false,
        stopInRedisDown := d.stopInRedisDown.getD defaultStop }
    | none =>
      { key := "default:" ++ currentUrl,
        windowSeconds := envWindowSeconds, maxRequests := envMaxRequests,
        adminBypass := false, stopInRedisDown := defaultStop }
  | none =>
    { key := "default:" ++ currentUrl,
      windowSeconds := envWindowSeconds, maxRequests := envMaxRequests,
      adminBypass := false, stopInRedisDown := defaultStop }

/-- `getLimitsContext` (rateLimiter.middlewar.ts lines 139-196).
`envWindowSeconds` / `envMaxRequests` are the parsed
`RATE_WINDOW_SECONDS` / `RATE_MAX_REQUESTS` environment fallbacks.  The
route loop runs only when the config exists, is not disabled, and has
routes; otherwise (and when no route matches) the `default:` bucket
applies. -/
def getLimitsContext (matchUrl : String → String → Except Unit Bool)
    (rateConfig : Option RateConfig) (envWindowSeconds envMaxRequests : Nat)
    (reqUrl reqMethod : String) : LimitContext :=
  let defaultStop : Bool := strToUpper reqMethod ≠ "GET"
  let currentUrl := normalizeUrl (stripQuery reqUrl)
  let currentMethod := strToUpper reqMethod
  match rateConfig with
  | some cfg =>
    if cfg.enabled = some false then
      defaultContext rateConfig envWindowSeconds envMaxRequests currentUrl defaultStop
    else
      match resolveRoute matchUrl currentUrl currentMethod cfg.routes with
      | some (k, rc) => routeContext cfg envWindowSeconds envMaxRequests defaultStop k rc
      | none =>
        defaultContext rateConfig envWindowSeconds envMaxRequests currentUrl defaultStop
  | none =>
    defaultContext rateConfig envWindowSeconds envMaxRequests currentUrl defaultStop

/-- A run of consecutive admission checks against the local fallback
(connection down) at the given instants, threading the fallback map. -/
def runLocalChecks (ctx : LimitContext) (env : BypassEnv) (ip : String) :
    MemStore → List Nat → List Decision × MemStore
  | mem, [] => ([], mem)
  | mem, t :: ts =>
    let r := rateLimiter ctx env ip .down mem t
    let rest := runLocalChecks ctx env ip r.2.1 ts
    (r.1 :: rest.1, rest.2)

/-- A run of consecutive admission checks against a healthy shared store at
the given instants, threading the store state (the fallback map is untouched
on this path and is not threaded). -/
def runRedisChecks (ctx : LimitContext) (env : BypassEnv) (ip : String) :
    RedisState → List Nat → List Decision × RedisState
  | st, [] => ([], st)
  | st, t :: ts =>
    let r := rateLimiter ctx env ip (.up st false) (fun _ => none) t
    let st' := r.2.2.getD st
    let rest := runRedisChecks ctx env ip st' ts
    (r.1 :: rest.1, rest.2)

/-! ## Cache-versioning protocol (Blog.service.ts) -/

/-- `AUTHORIZED_REDIS_PREFIXES.BLOG_POST` (redis.constant.ts). -/
def BLOG_POST : String := "portfolio:blog:post:"

/-- `AUTHORIZED_REDIS_PREFIXES.BLOG_VER` (redis.constant.ts). -/
def BLOG_VER : String := "portfolio:blog:version:"

/-- `AUTHORIZED_REDIS_PREFIXES.AUTH_TOKEN` (redis.constant.ts). -/
def AUTH_TOKEN : String := "portfolio:auth:token:"

/-- `AUTHORIZED_REDIS_PREFIXES.THEME_COUNTER` (redis.constant.ts). -/
def THEME_COUNTER : String := "portfolio:theme:counter:"

/-- Modelled from the spec: `BlogHelper.getCacheKey` (Blog.helper.ts) is not
under src/.  Spec §6: "one key per content identity (e.g. `blog:post:<slug>`)";
the prefix itself is `AUTHORIZED_REDIS_PREFIXES.BLOG_POST` from
redis.constant.ts (which is under src/). -/
def getCacheKey (slug : String) : String := BLOG_POST ++ slug

/-- The version-marker key `${AUTHORIZED_REDIS_PREFIXES.BLOG_VER}${slug}`
(Blog.service.ts line 514). -/
def getVersionKey (slug : String) : String := BLOG_VER ++ slug

/-- Character-list prefix test (the string comparison used by the key
checks and by the `MATCH prefix*` glob of `SCAN`). -/
def listIsPrefix : List Char → List Char → Bool
  | [], _ => true
  | _ :: _, [] => false
  | a :: as, b :: bs => a == b && listIsPrefix as bs

/-- `p` is a prefix of `s`. -/
def strStartsWith (p s : String) : Bool := listIsPrefix p.data s.data

/-- Modelled from the spec: `validateKey` (src/utils/redis.helper.ts) is not
under src/.  redis.constant.ts declares the "authorized redis prefixes
(authorized dynamic keys)"; `validateKey` accepts a key carrying one of them
and throws a validation error otherwise. -/
def validateKey (k : String) : Bool :=
  strStartsWith BLOG_POST k || strStartsWith BLOG_VER k ||
    strStartsWith AUTH_TOKEN k || strStartsWith THEME_COUNTER k

/-- Errors surfaced by the blog service paths modelled here. -/
inductive BlogError where
  | validation : BlogError
  | notFound : BlogError
  | redis : BlogError
  deriving DecidableEq, Repr

/-- The cache keyspace (values are irrelevant to the claims: a key is either
present or absent). -/
abbrev CacheState := String → Bool

/-- Redis `DEL` of a list of keys in one call. -/
def cacheDel (st : CacheState) (ks : List String) : CacheState :=
  fun k => if k ∈ ks then false else st k

/-- The cache connection as the blog service sees it: `down` models
`!RedisClient || !RedisClient.isReady`; `up st delFails` a ready client over
`st`, where `delFails = true` injects `RedisClient.del` throwing. -/
inductive CacheConn where
  | down : CacheConn
  | up (st : CacheState) (delFails : Bool) : CacheConn

/-- `BlogService.deleteCacheBySlug` (Blog.service.ts lines 512-531): builds
the content key and the version key, validates both, returns `false` when the
shared store is down (logged skip), issues one `del` of both keys when it is
up, and rethrows a `del` failure. -/
def deleteCacheBySlug (conn : CacheConn) (slug : String) :
    Except BlogError (Bool × CacheConn) :=
  let key := getCacheKey slug
  let versionKey := getVersionKey slug
  if !validateKey key then .error .validation
  else if !validateKey versionKey then .error .validation
  else
    match conn with
    | .down => .ok (false, .down)
    | .up st delFails =>
      if delFails then .error .redis
      else .ok (true, .up (cacheDel st [key, versionKey]) false)

/-- The posts table, keyed by slug (row contents are irrelevant here). -/
abbrev DbState := String → Bool

/-- `db.delete(posts).where(eq(posts.slug, slug)).returning().get()`:
whether a row was deleted, and the table afterwards. -/
def dbDeletePost (db : DbState) (slug : String) : Bool × DbState :=
  (db slug, fun s => if s = slug then false else db s)

/-- `BlogService.deletePostBySlug` (Blog.service.ts lines 488-504): validates
the cache key, deletes the row (`NotFoundError` when absent), then calls
`deleteCacheBySlug` inside try/catch — a cache failure is logged
(`console.error`) and swallowed, and `true` is returned either way. -/
def deletePostBySlug (db : DbState) (conn : CacheConn) (slug : String) :
    Except BlogError (Bool × DbState × CacheConn) :=
  let key := getCacheKey slug
  if !validateKey key then .error .validation
  else
    let d := dbDeletePost db slug
    if !d.1 then .error .notFound
    else
      match deleteCacheBySlug conn slug with
      | .ok r => .ok (true, d.2, r.2)
      | .error _ => .ok (true, d.2, conn)

/-- One round of the scan-and-delete loop body of `clearAllCache`
(Blog.service.ts lines 556-566): `SCAN cursor MATCH pat COUNT 100` over a
store whose keyspace listing is `keys` and whose membership is `live` visits
the next 100 listed keys and returns the live ones matching `pat` (`batch`);
then `if (keys.length > 0)` the batch is deleted in one `del`, counted as
one batch, and recorded.  Returns (membership afterwards, keys cleared this
round, batches this round, keys deleted this round). -/
def scanStep (keys : List String) (pat : String → Bool)
    (live : CacheState) (cursor : Nat) :
    CacheState × Nat × Nat × List String :=
  let batch := ((keys.drop cursor).take 100).filter (fun k => live k && pat k)
  if batch.isEmpty then (live, 0, 0, [])
  else (cacheDel live batch, batch.length, 1, batch)

/-- The do/while scan-and-delete loop of `clearAllCache` (lines 555-567 and
570-582), with an explicit iteration budget: the scan's follow-up cursor is
0 exactly when `keys.length ≤ cursor + 100` (all buckets visited), in which
case `while (cursor !== '0')` exits after the current round; otherwise the
next round runs at `cursor + 100`.  `fuel` bounds the number of further
rounds; since every round advances the cursor by 100, `keys.length` rounds
are always enough (`scanDeleteLoop` below supplies that). -/
def scanDeleteGo (keys : List String) (pat : String → Bool) :
    Nat → CacheState → Nat → CacheState × Nat × Nat × List String
  | 0, live, cursor => scanStep keys pat live cursor
  | fuel + 1, live, cursor =>
    let step := scanStep keys pat live cursor
    if keys.length ≤ cursor + 100 then step
    else
      let rest := scanDeleteGo keys pat fuel step.1 (cursor + 100)
      (rest.1, step.2.1 + rest.2.1, step.2.2.1 + rest.2.2.1,
       step.2.2.2 ++ rest.2.2.2)

/-- The whole do/while loop, budgeted with always-sufficient fuel. -/
def scanDeleteLoop (keys : List String) (pat : String → Bool)
    (live : CacheState) (cursor : Nat) :
    CacheState × Nat × Nat × List String :=
  scanDeleteGo keys pat keys.length live cursor

/-- The record returned by `clearAllCache` (its field names). -/
structure ClearResult where
  status : String
  total_keys_cleared : Nat
  keys_deleted : List String
  batches_processed : Nat
  deriving DecidableEq, Repr

/-- The scan connection for `clearAllCache`: a down client, or a ready one
whose keyspace listing at scan time is `keys` with membership `live`. -/
inductive ScanConn where
  | down : ScanConn
  | up (keys : List String) (live : CacheState) : ScanConn

/-- `BlogService.clearAllCache` (Blog.service.ts lines 538-596): a skipped
result with zero counts when the store is down; otherwise two cursor-based
scan-and-delete loops — `getCacheKey('*')`, then `${BLOG_VER}*` — whose
totals, batch counts and deleted keys are combined into a success result. -/
def clearAllCache : ScanConn → ClearResult × ScanConn
  | .down =>
    ({ status := "skipped", total_keys_cleared := 0, keys_deleted := [],
       batches_processed := 0 }, .down)
  | .up keys live =>
    let r1 := scanDeleteLoop keys (fun k => strStartsWith BLOG_POST k) live 0
    let r2 := scanDeleteLoop keys (fun k => strStartsWith BLOG_VER k) r1.1 0
    ({ status := "success",
       total_keys_cleared := r1.2.1 + r2.2.1,
       keys_deleted := r1.2.2.2 ++ r2.2.2.2,
       batches_processed := r1.2.2.1 + r2.2.2.1 }, .up keys r2.1)

/-- The membership function behind a scan connection. -/
def ScanConn.liveOf : ScanConn → CacheState
  | .down => fun _ => false
  | .up _ live => live

/-- The empty fallback map. -/
def emptyMem : MemStore := fun _ => none

/-- The empty shared counter store. -/
def emptyRedis : RedisState := fun _ => none

/-- A path-to-regexp oracle under which the pattern string `"[bad"` is
invalid (compiling it throws) and any other pattern matches exactly the path
equal to it. -/
def badPatternMatcher : String → String → Except Unit Bool :=
  fun pat url => if pat = "[bad" then .error () else .ok (pat = url)

/-- A route-table entry whose URL pattern is the invalid `"[bad"`. -/
def badRoute : RouteConfig :=
  { url := "[bad", method := none, windowSeconds := none, maxRequests := none,
    adminBypass := none, stopInRedisDown := none }

/-- A rate configuration carrying the invalid-pattern route and a default. -/
def badRouteConfig : RateConfig :=
  { enabled := none,
    default := some { windowSeconds := 60, maxRequests := 5,
                      adminBypass := none, stopInRedisDown := none },
    routes := [("bad", badRoute)] }

/-! ## Helper lemmas -/

theorem rateLimiter_eq_afterBypass (ctx : LimitContext) (env : BypassEnv)
    (ip : String) (conn : RedisConn) (mem : MemStore) (now : Nat)
    (hb : bypassGranted ctx env = false) :
    rateLimiter ctx env ip conn mem now = afterBypass ctx ip conn mem now := by
  unfold rateLimiter
  unfold bypassGranted at hb
  cases hby : ctx.adminBypass with
  | false => simp [hby]
  | true =>
    rw [hby] at hb
    simp only [Bool.true_and] at hb
    cases htok : env.token with
    | none => simp [hby]
    | some t =>
      cases hrev : env.revocation with
      | error e => simp [hby, hrev]
      | ok b =>
        cases b with
        | true => simp [hby, hrev]
        | false =>
          cases hver : env.verify with
          | error e => simp [hby, hrev, hver]
          | ok u => rw [htok, hrev, hver] at hb; simp at hb

theorem checkInMemoryRateLimit_dead (mem : MemStore) (k : String)
    (W N now : Nat) (hdead : memDeadB mem k now = true) :
    checkInMemoryRateLimit mem k W N now =
      ({ exceeded := false, count := 1, remaining := N - 1, retryAfter := W },
       memSet mem k { count := 1, expiresAt := now + W * 1000 }) := by
  unfold memDeadB at hdead
  unfold checkInMemoryRateLimit
  cases hm : mem k with
  | none => simp
  | some c =>
    rw [hm] at hdead
    simp only [decide_eq_true_eq] at hdead
    simp [hdead]

theorem checkInMemoryRateLimit_live (mem : MemStore) (k : String)
    (W N now : Nat) (c : MemoryCounter) (hm : mem k = some c)
    (hnow : now < c.expiresAt) :
    checkInMemoryRateLimit mem k W N now =
      ({ exceeded := decide (N < c.count + 1), count := c.count + 1,
         remaining := N - (c.count + 1),
         retryAfter := max 1 ((c.expiresAt - now + 999) / 1000) },
       memSet mem k { count := c.count + 1, expiresAt := c.expiresAt }) := by
  unfold checkInMemoryRateLimit
  rw [hm]
  have h : ¬ c.expiresAt ≤ now := by omega
  simp [h]

theorem afterBypass_down_strict (ctx : LimitContext) (ip : String)
    (mem : MemStore) (now : Nat) (hstop : ctx.stopInRedisDown = true) :
    afterBypass ctx ip .down mem now = (.deny503, mem, none) := by
  simp [afterBypass, hstop]

theorem afterBypass_down_dead (ctx : LimitContext) (ip : String)
    (mem : MemStore) (now : Nat) (hstop : ctx.stopInRedisDown = false)
    (hdead : memDeadB mem (memRateKey ctx.key ip) now = true) :
    afterBypass ctx ip .down mem now =
      (.allowNext ctx.maxRequests (ctx.maxRequests - 1) true,
       memSet mem (memRateKey ctx.key ip)
         { count := 1, expiresAt := now + ctx.windowSeconds * 1000 }, none) := by
  simp [afterBypass, hstop,
    checkInMemoryRateLimit_dead mem (memRateKey ctx.key ip)
      ctx.windowSeconds ctx.maxRequests now hdead]

theorem afterBypass_down_live (ctx : LimitContext) (ip : String)
    (mem : MemStore) (now : Nat) (c : MemoryCounter)
    (hstop : ctx.stopInRedisDown = false)
    (hm : mem (memRateKey ctx.key ip) = some c) (hnow : now < c.expiresAt) :
    afterBypass ctx ip .down mem now =
      ((if ctx.maxRequests < c.count + 1 then
          .deny429 ((max 1 ((c.expiresAt - now + 999) / 1000) : Nat) : Int)
        else .allowNext ctx.maxRequests (ctx.maxRequests - (c.count + 1)) true),
       memSet mem (memRateKey ctx.key ip)
         { count := c.count + 1, expiresAt := c.expiresAt }, none) := by
  simp only [afterBypass, hstop, Bool.false_eq_true, if_false,
    checkInMemoryRateLimit_live mem (memRateKey ctx.key ip)
      ctx.windowSeconds ctx.maxRequests now c hm hnow]
  by_cases hx : ctx.maxRequests < c.count + 1
  · simp [hx]
  · simp [hx]

theorem afterBypass_up_dead (ctx : LimitContext) (ip : String)
    (mem : MemStore) (st : RedisState) (now : Nat)
    (hdead : redisDeadB st (rateKey ctx.key ip) now = true) :
    ∃ st' : RedisState,
      afterBypass ctx ip (.up st false) mem now =
        ((if ctx.maxRequests < 1 then
            .deny429 (redisTtl st' (rateKey ctx.key ip) now)
          else .allowNext ctx.maxRequests (ctx.maxRequests - 1) false),
         mem, some st') ∧
      st' (rateKey ctx.key ip) =
        some { value := 1, expiresAt := some (now + ctx.windowSeconds * 1000) } ∧
      ∀ s, s ≠ rateKey ctx.key ip → st' s = st s := by
  unfold redisDeadB at hdead
  have hincr : redisIncr st (rateKey ctx.key ip) now =
      (1, fun s => if s = rateKey ctx.key ip then
        some { value := 1, expiresAt := none } else st s) := by
    unfold redisIncr
    cases hm : st (rateKey ctx.key ip) with
    | none => simp
    | some e => rw [hm] at hdead; simp at hdead; simp [hdead]
  refine ⟨fun s => if s = rateKey ctx.key ip then
    some { value := 1, expiresAt := some (now + ctx.windowSeconds * 1000) }
    else st s, ?_, by simp, fun s hs => by simp [hs]⟩
  simp only [afterBypass, Bool.false_eq_true, if_false, hincr]
  have hexp : redisExpire
      (fun s => if s = rateKey ctx.key ip then
        some { value := 1, expiresAt := none } else st s)
      (rateKey ctx.key ip) ctx.windowSeconds now =
      fun s => if s = rateKey ctx.key ip then
        some { value := 1, expiresAt := some (now + ctx.windowSeconds * 1000) }
        else st s := by
    unfold redisExpire
    simp [entryAlive]
    funext s
    by_cases hs : s = rateKey ctx.key ip <;> simp [hs]
  simp only [if_pos rfl, hexp]
  by_cases h1 : ctx.maxRequests < 1 <;> simp [h1]

theorem afterBypass_up_live (ctx : LimitContext) (ip : String)
    (mem : MemStore) (st : RedisState) (now : Nat) (v : Nat) (T : Nat)
    (hm : st (rateKey ctx.key ip) = some { value := v, expiresAt := some T })
    (hv : 1 ≤ v) (hnow : now < T) :
    ∃ st' : RedisState,
      afterBypass ctx ip (.up st false) mem now =
        ((if ctx.maxRequests < v + 1 then
            .deny429 (((T - now + 500) / 1000 : Nat) : Int)
          else .allowNext ctx.maxRequests (ctx.maxRequests - (v + 1)) false),
         mem, some st') ∧
      st' (rateKey ctx.key ip) = some { value := v + 1, expiresAt := some T } ∧
      ∀ s, s ≠ rateKey ctx.key ip → st' s = st s := by
  have halive : entryAlive { value := v, expiresAt := some T } now = true := by
    simp [entryAlive, hnow]
  have hincr : redisIncr st (rateKey ctx.key ip) now =
      (v + 1, fun s => if s = rateKey ctx.key ip then
        some { value := v + 1, expiresAt := some T } else st s) := by
    unfold redisIncr
    rw [hm]
    simp [halive]
  refine ⟨fun s => if s = rateKey ctx.key ip then
    some { value := v + 1, expiresAt := some T } else st s, ?_, by simp,
    fun s hs => by simp [hs]⟩
  simp only [afterBypass, Bool.false_eq_true, if_false, hincr]
  have hne : ¬ (v + 1 = 1) := by omega
  simp only [if_neg hne]
  have httl : redisTtl
      (fun s => if s = rateKey ctx.key ip then
        some { value := v + 1, expiresAt := some T } else st s)
      (rateKey ctx.key ip) now = (((T - now + 500) / 1000 : Nat) : Int) := by
    unfold redisTtl
    simp [entryAlive, hnow]
  rw [httl]
  by_cases hx : ctx.maxRequests < v + 1 <;> simp [hx]

/-- `(a + c) / 1000 ≤ W` whenever `a ≤ W * 1000` and `c < 1000`. -/
theorem div1000_le (a c W : Nat) (h : a ≤ W * 1000) (hc : c < 1000) :
    (a + c) / 1000 ≤ W := by
  have h1 : a + c ≤ W * 1000 + c := by omega
  have h2 : (a + c) / 1000 ≤ (W * 1000 + c) / 1000 := Nat.div_le_div_right h1
  have h3 : (W * 1000 + c) / 1000 = W := by
    rw [Nat.add_comm, Nat.add_mul_div_right c W (show 0 < 1000 by norm_num)]
    simp [Nat.div_eq_of_lt hc]
  omega

theorem afterBypass_fst_ne_bypass (ctx : LimitContext) (ip : String)
    (conn : RedisConn) (mem : MemStore) (now : Nat) :
    (afterBypass ctx ip conn mem now).1 ≠ Decision.bypassAllowed := by
  unfold afterBypass
  cases conn with
  | down =>
    by_cases h : ctx.stopInRedisDown
    · simp [h]
    · by_cases he :
        (checkInMemoryRateLimit mem (memRateKey ctx.key ip)
          ctx.windowSeconds ctx.maxRequests now).1.exceeded <;>
        simp [h, he]
  | up st f =>
    by_cases hf : f
    · simp [hf]
    · by_cases hc : ctx.maxRequests < (redisIncr st (rateKey ctx.key ip) now).1 <;>
        simp [hf, hc]

theorem afterBypass_up_snd (ctx : LimitContext) (ip : String) (st : RedisState)
    (mem : MemStore) (now : Nat) :
    ∃ st' : RedisState,
      (afterBypass ctx ip (.up st false) mem now).2.2 = some st' := by
  unfold afterBypass
  simp only [Bool.false_eq_true, if_false]
  split <;> exact ⟨_, rfl⟩

theorem afterBypass_down_memFallback (ctx : LimitContext) (ip : String)
    (mem : MemStore) (now : Nat) (l r : Nat) (mf : Bool)
    (h : (afterBypass ctx ip .down mem now).1 = .allowNext l r mf) :
    mf = true := by
  unfold afterBypass at h
  by_cases hs : ctx.stopInRedisDown
  · simp [hs] at h
  · by_cases he :
      (checkInMemoryRateLimit mem (memRateKey ctx.key ip)
        ctx.windowSeconds ctx.maxRequests now).1.exceeded <;>
      simp [hs, he] at h
    exact h.2.2

theorem afterBypass_up_memFallback (ctx : LimitContext) (ip : String)
    (st : RedisState) (fl : Bool) (mem : MemStore) (now : Nat)
    (l r : Nat) (mf : Bool)
    (h : (afterBypass ctx ip (.up st fl) mem now).1 = .allowNext l r mf) :
    mf = false := by
  unfold afterBypass at h
  by_cases hf : fl
  · simp [hf] at h
  · by_cases hc : ctx.maxRequests < (redisIncr st (rateKey ctx.key ip) now).1 <;>
      simp [hf, hc] at h
    exact h.2.2

theorem rateLimiter_grant (ctx : LimitContext) (env : BypassEnv) (ip : String)
    (conn : RedisConn) (mem : MemStore) (now : Nat) (t u : String)
    (hby : ctx.adminBypass = true) (htok : env.token = some t)
    (hrev : env.revocation = .ok false) (hver : env.verify = .ok u) :
    rateLimiter ctx env ip conn mem now = (.bypassAllowed, mem, conn.stateOf) := by
  unfold rateLimiter
  simp [hby, htok, hrev, hver]

/-! ## C1 — strict outage mode -/

/-- C1, counterexample.  The claim says that with `stopOnOutage = true` and
the store unreachable *every* admission check is denied with a 503; but the
admin-bypass block runs before the backend health check, so a request that
presents a valid, un-revoked admin credential on an `adminBypass` route is
admitted (`next()`), not denied, even though the store is down and
`stopInRedisDown` is true. -/
theorem c1_counterexample :
    (rateLimiter
        { key := "contact", windowSeconds := 60, maxRequests := 5,
          adminBypass := true, stopInRedisDown := true }
        { token := some "tok", revocation := .ok false, verify := .ok "admin" }
        "1.2.3.4" .down emptyMem 0).1 = Decision.bypassAllowed ∧
      Decision.bypassAllowed ≠ Decision.deny503 :=
  ⟨rfl, by decide⟩

/-- C1, amended: for every admission check whose resolved context has
`stopInRedisDown = true`, if the shared counter store is unreachable and the
admin bypass is not granted, the gate denies with the 503 service-unavailable
response, leaving the local fallback map untouched, regardless of any counter
state. -/
theorem c1_amended (ctx : LimitContext) (env : BypassEnv) (ip : String)
    (mem : MemStore) (now : Nat) (hb : bypassGranted ctx env = false)
    (hstop : ctx.stopInRedisDown = true) :
    rateLimiter ctx env ip .down mem now = (.deny503, mem, none) := by
  rw [rateLimiter_eq_afterBypass ctx env ip .down mem now hb]
  exact afterBypass_down_strict ctx ip mem now hstop

/-- C1, witness for the amended theorem at a concrete strict-mode outage. -/
theorem c1_witness :
    bypassGranted
        { key := "login", windowSeconds := 60, maxRequests := 5,
          adminBypass := false, stopInRedisDown := true }
        { token := none, revocation := .error (), verify := .error () } = false ∧
      rateLimiter
        { key := "login", windowSeconds := 60, maxRequests := 5,
          adminBypass := false, stopInRedisDown := true }
        { token := none, revocation := .error (), verify := .error () }
        "9.9.9.9" .down emptyMem 1234 = (.deny503, emptyMem, none) :=
  ⟨by decide,
   c1_amended
     { key := "login", windowSeconds := 60, maxRequests := 5,
       adminBypass := false, stopInRedisDown := true }
     { token := none, revocation := .error (), verify := .error () }
     "9.9.9.9" emptyMem 1234 (by decide) (by decide)⟩

/-! ## C5 — unexpected internal exception -/

/-- C5, counterexample.  The claim says an unexpected exception inside the
gate (e.g. the store increment throwing) propagates to the caller as a
generic server error rather than a silent allow; but the middleware's outer
`catch` (lines 317-320) logs the error and calls `next()` with no error
argument — the request is passed through with no error response at all.
Here the increment throws and the outcome is `caughtNext` (pass-through),
not any error/denial response. -/
theorem c5_counterexample :
    rateLimiter
        { key := "blog", windowSeconds := 60, maxRequests := 5,
          adminBypass := false, stopInRedisDown := false }
        { token := none, revocation := .error (), verify := .error () }
        "1.2.3.4" (.up emptyRedis true) emptyMem 0 =
      (Decision.caughtNext, emptyMem, some emptyRedis) ∧
    Decision.caughtNext ≠ Decision.deny503 :=
  ⟨rfl, by decide⟩

/-- C5, amended: when the shared-store increment throws mid-check (and the
bypass was not granted), the gate catches the exception, logs it, and passes
the request through to the next handler unchanged — a silent allow without
rate limiting, not a propagated server error. -/
theorem c5_amended (ctx : LimitContext) (env : BypassEnv) (ip : String)
    (st : RedisState) (mem : MemStore) (now : Nat)
    (hb : bypassGranted ctx env = false) :
    rateLimiter ctx env ip (.up st true) mem now = (.caughtNext, mem, some st) := by
  rw [rateLimiter_eq_afterBypass ctx env ip (.up st true) mem now hb]
  simp [afterBypass]

/-- C5, witness for the amended theorem. -/
theorem c5_witness :
    bypassGranted
        { key := "blog", windowSeconds := 30, maxRequests := 2,
          adminBypass := true, stopInRedisDown := true }
        { token := some "tok", revocation := .ok true, verify := .ok "u" } = false ∧
      rateLimiter
        { key := "blog", windowSeconds := 30, maxRequests := 2,
          adminBypass := true, stopInRedisDown := true }
        { token := some "tok", revocation := .ok true, verify := .ok "u" }
        "8.8.8.8" (.up emptyRedis true) emptyMem 77 =
        (Decision.caughtNext, emptyMem, some emptyRedis) :=
  ⟨by decide,
   c5_amended
     { key := "blog", windowSeconds := 30, maxRequests := 2,
       adminBypass := true, stopInRedisDown := true }
     { token := some "tok", revocation := .ok true, verify := .ok "u" }
     "8.8.8.8" emptyRedis emptyMem 77 (by decide)⟩

theorem bypassGranted_iff (ctx : LimitContext) (env : BypassEnv) :
    bypassGranted ctx env = true ↔
      (ctx.adminBypass = true ∧ (∃ t, env.token = some t) ∧
        env.revocation = .ok false ∧ ∃ u, env.verify = .ok u) := by
  rcases env with ⟨tok, rev, ver⟩
  rcases tok with _ | t <;> rcases rev with e | b <;> rcases ver with e2 | u
  all_goals try cases b
  all_goals simp [bypassGranted]

theorem rateLimiter_fst_cases (ctx : LimitContext) (env : BypassEnv)
    (ip : String) (conn : RedisConn) (mem : MemStore) (now : Nat) :
    (rateLimiter ctx env ip conn mem now).1 = Decision.bypassAllowed ∨
    (rateLimiter ctx env ip conn mem now).1 = (afterBypass ctx ip conn mem now).1 := by
  rcases env with ⟨tok, rev, ver⟩
  unfold rateLimiter
  by_cases hby : ctx.adminBypass
  · cases tok with
    | none => right; simp [hby]
    | some t =>
      rcases rev with e | b
      · right; simp [hby]
      · cases b
        · rcases ver with e | u
          · right; simp [hby]
          · left; simp [hby]
        · right; simp [hby]
  · right; simp [hby]

/-! ## C4 — admin bypass conditions -/

/-- C4: the gate grants bypass (the bypass block's `return next()`) exactly
when the route has `adminBypass`, a bearer token is present, the revocation
check answers not-revoked, and `jwt.verify` succeeds; and a granted bypass
skips the counters entirely (both stores are untouched).  In particular an
absent credential, a revocation-lookup failure (`revocation = .error`) or a
verification failure never yields bypass — they fall through to normal rate
limiting. -/
theorem c4_bypass_gate (ctx : LimitContext) (env : BypassEnv) (ip : String)
    (conn : RedisConn) (mem : MemStore) (now : Nat) :
    ((rateLimiter ctx env ip conn mem now).1 = Decision.bypassAllowed ↔
      (ctx.adminBypass = true ∧ (∃ t, env.token = some t) ∧
        env.revocation = .ok false ∧ ∃ u, env.verify = .ok u)) ∧
    ((rateLimiter ctx env ip conn mem now).1 = Decision.bypassAllowed →
      (rateLimiter ctx env ip conn mem now).2.1 = mem ∧
      (rateLimiter ctx env ip conn mem now).2.2 = conn.stateOf) := by
  by_cases hg : bypassGranted ctx env = true
  · obtain ⟨hby, ⟨t, htok⟩, hrev, u, hver⟩ := (bypassGranted_iff ctx env).mp hg
    rw [rateLimiter_grant ctx env ip conn mem now t u hby htok hrev hver]
    exact ⟨⟨fun _ => ⟨hby, ⟨t, htok⟩, hrev, u, hver⟩, fun _ => rfl⟩,
           fun _ => ⟨rfl, rfl⟩⟩
  · have hb : bypassGranted ctx env = false := by
      revert hg; cases bypassGranted ctx env <;> simp
    rw [rateLimiter_eq_afterBypass ctx env ip conn mem now hb]
    have hne := afterBypass_fst_ne_bypass ctx ip conn mem now
    refine ⟨⟨fun h => absurd h hne, ?_⟩, fun h => absurd h hne⟩
    rintro ⟨hby, ⟨t, htok⟩, hrev, u, hver⟩
    exfalso
    have : bypassGranted ctx env = true :=
      (bypassGranted_iff ctx env).mpr ⟨hby, ⟨t, htok⟩, hrev, u, hver⟩
    rw [hb] at this
    exact Bool.false_ne_true this

/-- C4, witness: a concrete granted bypass, through the theorem's iff. -/
theorem c4_witness :
    (rateLimiter
        { key := "adm", windowSeconds := 60, maxRequests := 5,
          adminBypass := true, stopInRedisDown := false }
        { token := some "tok", revocation := .ok false, verify := .ok "root" }
        "ip" .down emptyMem 0).1 = Decision.bypassAllowed :=
  (c4_bypass_gate
    { key := "adm", windowSeconds := 60, maxRequests := 5,
      adminBypass := true, stopInRedisDown := false }
    { token := some "tok", revocation := .ok false, verify := .ok "root" }
    "ip" .down emptyMem 0).1.mpr ⟨rfl, ⟨"tok", rfl⟩, rfl, "root", rfl⟩

/-! ## C3 — the window TTL is armed exactly on the 0→1 transition -/

/-- C3: on the shared-store path (no bypass granted), if the counter key is
absent or expired, the check creates it at value 1 with a TTL of exactly
`windowSeconds` from now (`expire` issued on the 0→1 transition); if a live
counter `v ≥ 1` with expiry `T` exists, the check only increments it and the
expiry instant `T` is left untouched — the window is never extended or
re-armed by later hits. -/
theorem c3_ttl_armed_once (ctx : LimitContext) (env : BypassEnv) (ip : String)
    (st : RedisState) (mem : MemStore) (now : Nat)
    (hb : bypassGranted ctx env = false) :
    ∃ st' : RedisState,
      (rateLimiter ctx env ip (.up st false) mem now).2.2 = some st' ∧
      (redisDeadB st (rateKey ctx.key ip) now = true →
        st' (rateKey ctx.key ip) =
          some { value := 1, expiresAt := some (now + ctx.windowSeconds * 1000) }) ∧
      (∀ v T, st (rateKey ctx.key ip) = some { value := v, expiresAt := some T } →
        1 ≤ v → now < T →
        st' (rateKey ctx.key ip) = some { value := v + 1, expiresAt := some T }) := by
  rw [rateLimiter_eq_afterBypass ctx env ip _ mem now hb]
  by_cases hdead : redisDeadB st (rateKey ctx.key ip) now = true
  · obtain ⟨st', heq, hrk, _⟩ := afterBypass_up_dead ctx ip mem st now hdead
    refine ⟨st', by rw [heq], fun _ => hrk, ?_⟩
    intro v T hvT hv hnow
    exfalso
    unfold redisDeadB at hdead
    rw [hvT] at hdead
    simp [entryAlive, hnow] at hdead
  · have hsome : ∃ e, st (rateKey ctx.key ip) = some e ∧ entryAlive e now = true := by
      unfold redisDeadB at hdead
      cases hm : st (rateKey ctx.key ip) with
      | none => rw [hm] at hdead; simp at hdead
      | some e =>
        rw [hm] at hdead
        simp only [Bool.not_eq_true', Bool.not_eq_false] at hdead
        exact ⟨e, rfl, hdead⟩
    obtain ⟨e, hm, halive⟩ := hsome
    rcases hexp : e.expiresAt with _ | T
    · obtain ⟨st', heq⟩ := afterBypass_up_snd ctx ip st mem now
      refine ⟨st', heq, fun hd => absurd hd hdead, ?_⟩
      intro v T hvT hv hnow
      exfalso
      rw [hm] at hvT
      have he : e = { value := v, expiresAt := some T } := by injection hvT
      rw [he] at hexp
      simp at hexp
    · have hnowT : now < T := by
        unfold entryAlive at halive
        rw [hexp] at halive
        simpa using halive
      rcases Nat.lt_or_ge 0 e.value with hv1 | hv0
      · have hm' : st (rateKey ctx.key ip) =
            some { value := e.value, expiresAt := some T } := by
          rw [hm]
          cases e
          simp_all
        obtain ⟨st', heq, hrk, _⟩ :=
          afterBypass_up_live ctx ip mem st now e.value T hm' hv1 hnowT
        refine ⟨st', by rw [heq], fun hd => absurd hd hdead, ?_⟩
        intro v T' hvT hv hnow'
        rw [hm'] at hvT
        simp only [Option.some.injEq, RedisEntry.mk.injEq] at hvT
        obtain ⟨h1, h2⟩ := hvT
        subst h2
        rw [← h1]
        exact hrk
      · obtain ⟨st', heq⟩ := afterBypass_up_snd ctx ip st mem now
        refine ⟨st', heq, fun hd => absurd hd hdead, ?_⟩
        intro v T' hvT hv hnow'
        exfalso
        rw [hm] at hvT
        have he : e = { value := v, expiresAt := some T' } := by injection hvT
        have : e.value = v := by rw [he]
        omega

/-- C3, witness on a fresh key: the TTL gets armed. -/
theorem c3_witness :
    bypassGranted
        { key := "blog", windowSeconds := 60, maxRequests := 5,
          adminBypass := false, stopInRedisDown := false }
        { token := none, revocation := .error (), verify := .error () } = false ∧
      (∃ st' : RedisState,
        (rateLimiter
            { key := "blog", windowSeconds := 60, maxRequests := 5,
              adminBypass := false, stopInRedisDown := false }
            { token := none, revocation := .error (), verify := .error () }
            "ip" (.up emptyRedis false) emptyMem 1000).2.2 = some st' ∧
        (redisDeadB emptyRedis (rateKey "blog" "ip") 1000 = true →
          st' (rateKey "blog" "ip") =
            some { value := 1, expiresAt := some (1000 + 60 * 1000) }) ∧
        (∀ v T, emptyRedis (rateKey "blog" "ip") =
            some { value := v, expiresAt := some T } →
          1 ≤ v → 1000 < T →
          st' (rateKey "blog" "ip") = some { value := v + 1, expiresAt := some T })) :=
  ⟨by decide,
   c3_ttl_armed_once
     { key := "blog", windowSeconds := 60, maxRequests := 5,
       adminBypass := false, stopInRedisDown := false }
     { token := none, revocation := .error (), verify := .error () }
     "ip" emptyRedis emptyMem 1000 (by decide)⟩

/-! ## C6 — rate-limit response headers -/

/-- C6, counterexample.  The claim says every admission-checked response,
allowed or denied, carries `X-RateLimit-Limit` and `X-RateLimit-Remaining`;
but both 429 paths and the 503 path return before any `res.set` call, so a
denied response carries no `X-RateLimit-*` header at all.  Concretely, a
check on a `maxRequests = 0` route over a healthy store is denied with 429
and its header list is empty. -/
theorem c6_counterexample :
    (rateLimiter
        { key := "blog", windowSeconds := 60, maxRequests := 0,
          adminBypass := false, stopInRedisDown := false }
        { token := none, revocation := .error (), verify := .error () }
        "ip" (.up emptyRedis false) emptyMem 0).1 = Decision.deny429 60 ∧
      headersOf (Decision.deny429 60) = [] :=
  ⟨rfl, rfl⟩

/-- C6, amended: every *allowed* admission-checked response carries
`X-RateLimit-Limit` and `X-RateLimit-Remaining`, and carries
`X-RateLimit-Store: memory-fallback` exactly when the check was served by the
local fallback (the flag is `true` on every allow from a down connection and
`false` on every allow from a ready one); denied responses (429 or 503) carry
no `X-RateLimit-*` headers. -/
theorem c6_amended (ctx : LimitContext) (env : BypassEnv) (ip : String)
    (conn : RedisConn) (mem : MemStore) (now : Nat) (l r : Nat) (mf : Bool)
    (h : (rateLimiter ctx env ip conn mem now).1 = .allowNext l r mf) :
    headersOf (.allowNext l r mf) =
      [("X-RateLimit-Limit", toString l), ("X-RateLimit-Remaining", toString r)] ++
        (if mf then [("X-RateLimit-Store", "memory-fallback")] else []) ∧
    (conn = .down → mf = true) ∧
    (∀ st fl, conn = .up st fl → mf = false) ∧
    headersOf Decision.deny503 = [] ∧
    (∀ ra : Int, headersOf (Decision.deny429 ra) = []) := by
  refine ⟨rfl, ?_, ?_, rfl, fun _ => rfl⟩
  · intro hconn
    subst hconn
    rcases rateLimiter_fst_cases ctx env ip .down mem now with hcase | hcase
    · rw [h] at hcase; cases hcase
    · rw [h] at hcase
      exact afterBypass_down_memFallback ctx ip mem now l r mf hcase.symm
  · intro st fl hconn
    subst hconn
    rcases rateLimiter_fst_cases ctx env ip (.up st fl) mem now with hcase | hcase
    · rw [h] at hcase; cases hcase
    · rw [h] at hcase
      exact afterBypass_up_memFallback ctx ip st fl mem now l r mf hcase.symm

/-- C6, witness: a concrete allowed check on the fallback path. -/
theorem c6_witness :
    headersOf (.allowNext 5 4 true) =
      [("X-RateLimit-Limit", toString 5), ("X-RateLimit-Remaining", toString 4)] ++
        (if true then [("X-RateLimit-Store", "memory-fallback")] else []) ∧
    (RedisConn.down = RedisConn.down → true = true) ∧
    (∀ st fl, RedisConn.down = RedisConn.up st fl → true = false) ∧
    headersOf Decision.deny503 = [] ∧
    (∀ ra : Int, headersOf (Decision.deny429 ra) = []) :=
  c6_amended
    { key := "blog", windowSeconds := 60, maxRequests := 5,
      adminBypass := false, stopInRedisDown := false }
    { token := none, revocation := .error (), verify := .error () }
    "ip" .down emptyMem 0 5 4 true rfl

/-! ## C10 — first hit of a local window vs. the shared path at zero quota -/

/-- C10: in the local fallback, a key with no live record always starts a
fresh window — the result is `exceeded = false, count = 1` and the stored
record is `{count = 1, expiresAt = now + windowSeconds·1000}` — so the first
request of each local window is admitted for every `maxRequests`, including
`maxRequests = 0` (where the gate answers `allowNext 0 0 true`), whereas the
shared-store path denies that same first request with a 429 when
`maxRequests = 0`. -/
theorem c10_local_window_start (ctx : LimitContext) (env : BypassEnv)
    (ip : String) (mem : MemStore) (st : RedisState) (now : Nat)
    (hb : bypassGranted ctx env = false)
    (hstop : ctx.stopInRedisDown = false)
    (hmem : memDeadB mem (memRateKey ctx.key ip) now = true)
    (hst : redisDeadB st (rateKey ctx.key ip) now = true) :
    checkInMemoryRateLimit mem (memRateKey ctx.key ip)
        ctx.windowSeconds ctx.maxRequests now =
      ({ exceeded := false, count := 1, remaining := ctx.maxRequests - 1,
         retryAfter := ctx.windowSeconds },
       memSet mem (memRateKey ctx.key ip)
         { count := 1, expiresAt := now + ctx.windowSeconds * 1000 }) ∧
    (ctx.maxRequests = 0 →
      (rateLimiter ctx env ip .down mem now).1 = .allowNext 0 0 true ∧
      ∃ r, (rateLimiter ctx env ip (.up st false) mem now).1 = .deny429 r) := by
  refine ⟨checkInMemoryRateLimit_dead mem (memRateKey ctx.key ip)
    ctx.windowSeconds ctx.maxRequests now hmem, ?_⟩
  intro h0
  constructor
  · rw [rateLimiter_eq_afterBypass ctx env ip .down mem now hb,
      afterBypass_down_dead ctx ip mem now hstop hmem]
    simp [h0]
  · rw [rateLimiter_eq_afterBypass ctx env ip (.up st false) mem now hb]
    obtain ⟨st', heq, _, _⟩ := afterBypass_up_dead ctx ip mem st now hst
    rw [heq]
    refine ⟨redisTtl st' (rateKey ctx.key ip) now, ?_⟩
    simp [h0]

/-- C10, witness at `maxRequests = 0` on fresh stores. -/
theorem c10_witness :
    checkInMemoryRateLimit emptyMem (memRateKey "cnt" "ip") 60 0 7 =
      ({ exceeded := false, count := 1, remaining := 0 - 1, retryAfter := 60 },
       memSet emptyMem (memRateKey "cnt" "ip")
         { count := 1, expiresAt := 7 + 60 * 1000 }) ∧
    ((0 : Nat) = 0 →
      (rateLimiter
          { key := "cnt", windowSeconds := 60, maxRequests := 0,
            adminBypass := false, stopInRedisDown := false }
          { token := none, revocation := .error (), verify := .error () }
          "ip" .down emptyMem 7).1 = .allowNext 0 0 true ∧
      ∃ r, (rateLimiter
          { key := "cnt", windowSeconds := 60, maxRequests := 0,
            adminBypass := false, stopInRedisDown := false }
          { token := none, revocation := .error (), verify := .error () }
          "ip" (.up emptyRedis false) emptyMem 7).1 = .deny429 r) :=
  c10_local_window_start
    { key := "cnt", windowSeconds := 60, maxRequests := 0,
      adminBypass := false, stopInRedisDown := false }
    { token := none, revocation := .error (), verify := .error () }
    "ip" emptyMem emptyRedis 7 (by decide) (by decide) (by decide) (by decide)

/-- Invariant of a run against the local fallback: starting from a live
record `{count = c, expiresAt = T}` with `c ≥ 1`, over instants that all lie
inside the window (`t < T` and `T ≤ t + windowSeconds·1000`), the record's
count grows by one per check with `T` unchanged, the `(c+j+1)`-th hit is
allowed with `remaining = maxRequests - (c+j+1)` while `c+j+1 ≤ maxRequests`,
and is denied with a 429 whose `retryAfter ≤ windowSeconds` afterwards. -/
theorem runLocal_inv (ctx : LimitContext) (env : BypassEnv) (ip : String)
    (hb : bypassGranted ctx env = false) (hstop : ctx.stopInRedisDown = false)
    (T : Nat) :
    ∀ (ts : List Nat) (c : Nat) (mem : MemStore),
      1 ≤ c →
      mem (memRateKey ctx.key ip) = some { count := c, expiresAt := T } →
      (∀ t ∈ ts, t < T ∧ T ≤ t + ctx.windowSeconds * 1000) →
      (runLocalChecks ctx env ip mem ts).2 (memRateKey ctx.key ip) =
          some { count := c + ts.length, expiresAt := T } ∧
      ∀ j, j < ts.length →
        (c + j + 1 ≤ ctx.maxRequests →
          (runLocalChecks ctx env ip mem ts).1[j]? =
            some (.allowNext ctx.maxRequests (ctx.maxRequests - (c + j + 1)) true)) ∧
        (ctx.maxRequests < c + j + 1 →
          ∃ r : Int, (runLocalChecks ctx env ip mem ts).1[j]? = some (.deny429 r) ∧
            r ≤ (ctx.windowSeconds : Int)) := by
  intro ts
  induction ts with
  | nil =>
    intro c mem hc hm hts
    refine ⟨by simpa [runLocalChecks] using hm, ?_⟩
    intro j hj
    exact absurd hj (by simp)
  | cons t ts ih =>
    intro c mem hc hm hts
    have ht := hts t (List.mem_cons_self t ts)
    have hstep : rateLimiter ctx env ip .down mem t =
        ((if ctx.maxRequests < c + 1 then
            .deny429 ((max 1 ((T - t + 999) / 1000) : Nat) : Int)
          else .allowNext ctx.maxRequests (ctx.maxRequests - (c + 1)) true),
         memSet mem (memRateKey ctx.key ip) { count := c + 1, expiresAt := T },
         none) := by
      rw [rateLimiter_eq_afterBypass ctx env ip .down mem t hb]
      exact afterBypass_down_live ctx ip mem t
        { count := c, expiresAt := T } hstop hm ht.1
    have hm' : memSet mem (memRateKey ctx.key ip)
        { count := c + 1, expiresAt := T } (memRateKey ctx.key ip) =
        some { count := c + 1, expiresAt := T } := by simp [memSet]
    have hts' : ∀ t' ∈ ts, t' < T ∧ T ≤ t' + ctx.windowSeconds * 1000 :=
      fun t' h' => hts t' (List.mem_cons_of_mem t h')
    obtain ⟨ihmem, ihdec⟩ := ih (c + 1)
      (memSet mem (memRateKey ctx.key ip) { count := c + 1, expiresAt := T })
      (by omega) hm' hts'
    constructor
    · simp only [runLocalChecks, hstep]
      rw [ihmem]
      simp only [List.length_cons]
      rw [show c + (ts.length + 1) = c + 1 + ts.length by omega]
    · intro j hj
      cases j with
      | zero =>
        constructor
        · intro hle
          have hcond : ¬ ctx.maxRequests < c + 1 := by omega
          simp only [runLocalChecks, hstep, if_neg hcond, List.getElem?_cons_zero]
        · intro hgt
          have hcond : ctx.maxRequests < c + 1 := by omega
          refine ⟨((max 1 ((T - t + 999) / 1000) : Nat) : Int), ?_, ?_⟩
          · simp only [runLocalChecks, hstep, if_pos hcond, List.getElem?_cons_zero]
          · have h1 : T - t ≤ ctx.windowSeconds * 1000 := by omega
            have h2 : (T - t + 999) / 1000 ≤ ctx.windowSeconds :=
              div1000_le (T - t) 999 ctx.windowSeconds h1 (by norm_num)
            have h3 : 1 ≤ ctx.windowSeconds := by
              have := ht.1
              have := ht.2
              omega
            exact_mod_cast max_le h3 h2
      | succ j' =>
        have hj' : j' < ts.length := by
          simp only [List.length_cons] at hj
          omega
        obtain ⟨ha, hd⟩ := ihdec j' hj'
        constructor
        · intro hle
          have := ha (by omega)
          simp only [runLocalChecks, hstep, List.getElem?_cons_succ]
          rw [show c + (j' + 1) + 1 = c + 1 + j' + 1 by omega]
          exact this
        · intro hgt
          obtain ⟨r, hr, hrb⟩ := hd (by omega)
          refine ⟨r, ?_, hrb⟩
          simp only [runLocalChecks, hstep, List.getElem?_cons_succ]
          exact hr

/-- Invariant of a run against the shared store, analogous to
`runLocal_inv`: starting from a live counter `{value = v, expiresAt = T}`
with `v ≥ 1`, within the window the counter is incremented without touching
`T`, hits are allowed while `v+j+1 ≤ maxRequests` and denied with 429 and
`retryAfter ≤ windowSeconds` beyond. -/
theorem runRedis_inv (ctx : LimitContext) (env : BypassEnv) (ip : String)
    (hb : bypassGranted ctx env = false) (T : Nat) :
    ∀ (ts : List Nat) (v : Nat) (st : RedisState),
      1 ≤ v →
      st (rateKey ctx.key ip) = some { value := v, expiresAt := some T } →
      (∀ t ∈ ts, t < T ∧ T ≤ t + ctx.windowSeconds * 1000) →
      (runRedisChecks ctx env ip st ts).2 (rateKey ctx.key ip) =
          some { value := v + ts.length, expiresAt := some T } ∧
      ∀ j, j < ts.length →
        (v + j + 1 ≤ ctx.maxRequests →
          (runRedisChecks ctx env ip st ts).1[j]? =
            some (.allowNext ctx.maxRequests (ctx.maxRequests - (v + j + 1)) false)) ∧
        (ctx.maxRequests < v + j + 1 →
          ∃ r : Int, (runRedisChecks ctx env ip st ts).1[j]? = some (.deny429 r) ∧
            r ≤ (ctx.windowSeconds : Int)) := by
  intro ts
  induction ts with
  | nil =>
    intro v st hv hm hts
    refine ⟨by simpa [runRedisChecks] using hm, ?_⟩
    intro j hj
    exact absurd hj (by simp)
  | cons t ts ih =>
    intro v st hv hm hts
    have ht := hts t (List.mem_cons_self t ts)
    obtain ⟨st', heq, hrk, _⟩ :=
      afterBypass_up_live ctx ip (fun _ => none) st t v T hm hv ht.1
    have hstep : rateLimiter ctx env ip (.up st false) (fun _ => none) t =
        ((if ctx.maxRequests < v + 1 then
            .deny429 (((T - t + 500) / 1000 : Nat) : Int)
          else .allowNext ctx.maxRequests (ctx.maxRequests - (v + 1)) false),
         (fun _ => none), some st') := by
      rw [rateLimiter_eq_afterBypass ctx env ip (.up st false) (fun _ => none) t hb]
      exact heq
    have hts' : ∀ t' ∈ ts, t' < T ∧ T ≤ t' + ctx.windowSeconds * 1000 :=
      fun t' h' => hts t' (List.mem_cons_of_mem t h')
    obtain ⟨ihmem, ihdec⟩ := ih (v + 1) st' (by omega) hrk hts'
    constructor
    · simp only [runRedisChecks, hstep, Option.getD_some]
      rw [ihmem]
      simp only [List.length_cons]
      rw [show v + (ts.length + 1) = v + 1 + ts.length by omega]
    · intro j hj
      cases j with
      | zero =>
        constructor
        · intro hle
          have hcond : ¬ ctx.maxRequests < v + 1 := by omega
          simp only [runRedisChecks, hstep, if_neg hcond, List.getElem?_cons_zero]
        · intro hgt
          have hcond : ctx.maxRequests < v + 1 := by omega
          refine ⟨(((T - t + 500) / 1000 : Nat) : Int), ?_, ?_⟩
          · simp only [runRedisChecks, hstep, if_pos hcond, List.getElem?_cons_zero]
          · have h1 : T - t ≤ ctx.windowSeconds * 1000 := by omega
            have h2 : (T - t + 500) / 1000 ≤ ctx.windowSeconds :=
              div1000_le (T - t) 500 ctx.windowSeconds h1 (by norm_num)
            exact_mod_cast h2
      | succ j' =>
        have hj' : j' < ts.length := by
          simp only [List.length_cons] at hj
          omega
        obtain ⟨ha, hd⟩ := ihdec j' hj'
        constructor
        · intro hle
          have := ha (by omega)
          simp only [runRedisChecks, hstep, Option.getD_some, List.getElem?_cons_succ]
          rw [show v + (j' + 1) + 1 = v + 1 + j' + 1 by omega]
          exact this
        · intro hgt
          obtain ⟨r, hr, hrb⟩ := hd (by omega)
          refine ⟨r, ?_, hrb⟩
          simp only [runRedisChecks, hstep, Option.getD_some, List.getElem?_cons_succ]
          exact hr

/-! ## C2 — N allowed then 429 within one window -/

/-- C2, counterexample.  The claim quantifies over every resolved
`maxRequests = N`, including `N = 0`, and requires the `(N+1)`-th check of a
window to be denied with 429 on the local-fallback path too; but the local
counter always starts a fresh window with `exceeded = false`, so with
`N = 0` the first ( = `(N+1)`-th ) check is allowed, not denied. -/
theorem c2_counterexample :
    (runLocalChecks
        { key := "guest", windowSeconds := 60, maxRequests := 0,
          adminBypass := false, stopInRedisDown := false }
        { token := none, revocation := .error (), verify := .error () }
        "ip" emptyMem [0]).1[0]? = some (.allowNext 0 0 true) := rfl

/-- C2, amended: for `maxRequests = N ≥ 1` and `windowSeconds = W`, for a
fixed (routingKey, client) pair and `N + 1` checks at instants inside one
window (all in `[t1, t1 + W·1000)`, starting with no live record), the first
`N` checks are allowed with `remaining = max(0, N - count) = N - (j+1)` and
the `(N+1)`-th is denied with a 429 whose `retryAfter ≤ W` — on both the
shared-store path and the local-fallback path.  (For `N = 0` the shared path
still denies the first check, but the local path admits it; see the
counterexample.) -/
theorem c2_amended (ctx : LimitContext) (env : BypassEnv) (ip : String)
    (hb : bypassGranted ctx env = false) (hstop : ctx.stopInRedisDown = false)
    (hN : 1 ≤ ctx.maxRequests) (t1 : Nat) (rest : List Nat)
    (hlen : rest.length = ctx.maxRequests)
    (hrest : ∀ t ∈ rest, t1 ≤ t ∧ t < t1 + ctx.windowSeconds * 1000)
    (mem : MemStore) (st : RedisState)
    (hmem : memDeadB mem (memRateKey ctx.key ip) t1 = true)
    (hst : redisDeadB st (rateKey ctx.key ip) t1 = true) :
    (∀ j, j < ctx.maxRequests →
      (runLocalChecks ctx env ip mem (t1 :: rest)).1[j]? =
        some (.allowNext ctx.maxRequests (ctx.maxRequests - (j + 1)) true) ∧
      (runRedisChecks ctx env ip st (t1 :: rest)).1[j]? =
        some (.allowNext ctx.maxRequests (ctx.maxRequests - (j + 1)) false)) ∧
    (∃ r : Int, (runLocalChecks ctx env ip mem (t1 :: rest)).1[ctx.maxRequests]? =
        some (.deny429 r) ∧ r ≤ (ctx.windowSeconds : Int)) ∧
    (∃ r : Int, (runRedisChecks ctx env ip st (t1 :: rest)).1[ctx.maxRequests]? =
        some (.deny429 r) ∧ r ≤ (ctx.windowSeconds : Int)) := by
  have hrest' : ∀ t ∈ rest,
      t < t1 + ctx.windowSeconds * 1000 ∧
      t1 + ctx.windowSeconds * 1000 ≤ t + ctx.windowSeconds * 1000 := by
    intro t htm
    have := hrest t htm
    omega
  -- first (fresh) step on the local path
  have hstepL : rateLimiter ctx env ip .down mem t1 =
      (.allowNext ctx.maxRequests (ctx.maxRequests - 1) true,
       memSet mem (memRateKey ctx.key ip)
         { count := 1, expiresAt := t1 + ctx.windowSeconds * 1000 }, none) := by
    rw [rateLimiter_eq_afterBypass ctx env ip .down mem t1 hb]
    exact afterBypass_down_dead ctx ip mem t1 hstop hmem
  -- first (fresh) step on the shared path
  obtain ⟨st1, heqR, hrk1, _⟩ :=
    afterBypass_up_dead ctx ip (fun _ => none) st t1 hst
  have hcond1 : ¬ ctx.maxRequests < 1 := by omega
  have hstepR : rateLimiter ctx env ip (.up st false) (fun _ => none) t1 =
      (.allowNext ctx.maxRequests (ctx.maxRequests - 1) false,
       (fun _ => none), some st1) := by
    rw [rateLimiter_eq_afterBypass ctx env ip (.up st false) (fun _ => none) t1 hb]
    rw [heqR, if_neg hcond1]
  -- the runs decompose as head step plus a run from a live record of count 1
  have hm1 : memSet mem (memRateKey ctx.key ip)
      { count := 1, expiresAt := t1 + ctx.windowSeconds * 1000 }
      (memRateKey ctx.key ip) =
      some { count := 1, expiresAt := t1 + ctx.windowSeconds * 1000 } := by
    simp [memSet]
  obtain ⟨_, hdecL⟩ := runLocal_inv ctx env ip hb hstop
    (t1 + ctx.windowSeconds * 1000) rest 1
    (memSet mem (memRateKey ctx.key ip)
      { count := 1, expiresAt := t1 + ctx.windowSeconds * 1000 })
    le_rfl hm1 hrest'
  obtain ⟨_, hdecR⟩ := runRedis_inv ctx env ip hb
    (t1 + ctx.windowSeconds * 1000) rest 1 st1 le_rfl hrk1 hrest'
  refine ⟨?_, ?_, ?_⟩
  · intro j hj
    constructor
    · cases j with
      | zero =>
        simp only [runLocalChecks, hstepL, List.getElem?_cons_zero]
      | succ j' =>
        simp only [runLocalChecks, hstepL, List.getElem?_cons_succ]
        have := (hdecL j' (by omega)).1 (by omega)
        rw [show j' + 1 + 1 = 1 + j' + 1 by omega]
        exact this
    · cases j with
      | zero =>
        simp only [runRedisChecks, hstepR, Option.getD_some, List.getElem?_cons_zero]
      | succ j' =>
        simp only [runRedisChecks, hstepR, Option.getD_some, List.getElem?_cons_succ]
        have := (hdecR j' (by omega)).1 (by omega)
        rw [show j' + 1 + 1 = 1 + j' + 1 by omega]
        exact this
  · obtain ⟨n, hn⟩ : ∃ n, ctx.maxRequests = n + 1 :=
      ⟨ctx.maxRequests - 1, by omega⟩
    obtain ⟨r, hr, hrb⟩ := (hdecL n (by omega)).2 (by omega)
    refine ⟨r, ?_, hrb⟩
    simp only [runLocalChecks, hstepL, hn, List.getElem?_cons_succ]
    exact hr
  · obtain ⟨n, hn⟩ : ∃ n, ctx.maxRequests = n + 1 :=
      ⟨ctx.maxRequests - 1, by omega⟩
    obtain ⟨r, hr, hrb⟩ := (hdecR n (by omega)).2 (by omega)
    refine ⟨r, ?_, hrb⟩
    simp only [runRedisChecks, hstepR, Option.getD_some, hn, List.getElem?_cons_succ]
    exact hr

/-- C2, witness: `N = 1`, `W = 1` second, checks at 0 ms and 500 ms. -/
theorem c2_witness :
    (1 : Nat) ≤ 1 ∧
    ((∀ j, j < (1 : Nat) →
        (runLocalChecks
            { key := "k", windowSeconds := 1, maxRequests := 1,
              adminBypass := false, stopInRedisDown := false }
            { token := none, revocation := .error (), verify := .error () }
            "ip" emptyMem (0 :: [500])).1[j]? =
          some (.allowNext 1 (1 - (j + 1)) true) ∧
        (runRedisChecks
            { key := "k", windowSeconds := 1, maxRequests := 1,
              adminBypass := false, stopInRedisDown := false }
            { token := none, revocation := .error (), verify := .error () }
            "ip" emptyRedis (0 :: [500])).1[j]? =
          some (.allowNext 1 (1 - (j + 1)) false)) ∧
      (∃ r : Int, (runLocalChecks
            { key := "k", windowSeconds := 1, maxRequests := 1,
              adminBypass := false, stopInRedisDown := false }
            { token := none, revocation := .error (), verify := .error () }
            "ip" emptyMem (0 :: [500])).1[1]? =
          some (.deny429 r) ∧ r ≤ ((1 : Nat) : Int)) ∧
      (∃ r : Int, (runRedisChecks
            { key := "k", windowSeconds := 1, maxRequests := 1,
              adminBypass := false, stopInRedisDown := false }
            { token := none, revocation := .error (), verify := .error () }
            "ip" emptyRedis (0 :: [500])).1[1]? =
          some (.deny429 r) ∧ r ≤ ((1 : Nat) : Int))) :=
  ⟨by decide,
   c2_amended
     { key := "k", windowSeconds := 1, maxRequests := 1,
       adminBypass := false, stopInRedisDown := false }
     { token := none, revocation := .error (), verify := .error () }
     "ip" (by decide) (by decide) (by decide) 0 [500] (by decide)
     (by intro t ht; simp at ht; subst ht; decide)
     emptyMem emptyRedis (by decide) (by decide)⟩

/-- Skipping a head route whose pattern fails to compile: the resolver's
request-time `catch` logs and continues with the remaining routes. -/
theorem resolveRoute_cons_error (matchUrl : String → String → Except Unit Bool)
    (currentUrl currentMethod : String) (k : String) (rc : RouteConfig)
    (rest : List (String × RouteConfig))
    (herr : matchUrl (normalizeUrl rc.url) currentUrl = .error ()) :
    resolveRoute matchUrl currentUrl currentMethod ((k, rc) :: rest) =
      resolveRoute matchUrl currentUrl currentMethod rest := by
  by_cases hm : strToUpper (rc.method.getD "GET") = currentMethod
  · simp only [resolveRoute, hm, herr]
    simp
  · simp only [resolveRoute]
    simp [hm]

/-! ## C7 — invalid pattern handling -/

/-- C7, counterexample.  The claim says invalid URL patterns are rejected at
configuration load time with a fatal error and never reach request time; but
the loader (lines 86-93) performs no pattern validation — an invalid pattern
loads successfully — and the request-time resolver (lines 159-178) catches
the pattern-compilation error, logs it, skips the route, and returns the
default context: handled at request time, non-fatally. -/
theorem c7_counterexample :
    loadRateConfig (.ok (some badRouteConfig)) = some badRouteConfig ∧
    getLimitsContext badPatternMatcher (some badRouteConfig) 60 5
        "/contact" "GET" =
      { key := "default:/contact", windowSeconds := 60, maxRequests := 5,
        adminBypass := false, stopInRedisDown := false } :=
  ⟨rfl, by decide⟩

/-- C7, amended: invalid URL patterns are NOT rejected at load time — the
configuration loader accepts them unchecked; a pattern whose compilation
throws is handled at request time, where the resolver logs the error and
skips that route, resolution continuing over the remaining routes (or the
default context) exactly as if the route were absent. -/
theorem c7_amended (matchUrl : String → String → Except Unit Bool)
    (enabled : Option Bool) (dflt : Option DefaultConfig) (k : String)
    (rc : RouteConfig) (rest : List (String × RouteConfig)) (envW envM : Nat)
    (reqUrl reqMethod : String)
    (herr : matchUrl (normalizeUrl rc.url)
        (normalizeUrl (stripQuery reqUrl)) = .error ()) :
    getLimitsContext matchUrl
        (some { enabled := enabled, default := dflt, routes := (k, rc) :: rest })
        envW envM reqUrl reqMethod =
      getLimitsContext matchUrl
        (some { enabled := enabled, default := dflt, routes := rest })
        envW envM reqUrl reqMethod := by
  by_cases hen : enabled = some false
  · simp only [getLimitsContext, hen]
    rfl
  · simp only [getLimitsContext, hen, if_neg]
    rw [resolveRoute_cons_error matchUrl (normalizeUrl (stripQuery reqUrl))
      (strToUpper reqMethod) k rc rest herr]
    rfl

/-- C7, witness: skipping the concrete invalid-pattern route. -/
theorem c7_witness :
    badPatternMatcher (normalizeUrl badRoute.url)
        (normalizeUrl (stripQuery "/x")) = .error () ∧
    getLimitsContext badPatternMatcher
        (some { enabled := none,
                default := some { windowSeconds := 60, maxRequests := 5,
                                  adminBypass := none, stopInRedisDown := none },
                routes := ("bad", badRoute) :: [] }) 60 5 "/x" "GET" =
      getLimitsContext badPatternMatcher
        (some { enabled := none,
                default := some { windowSeconds := 60, maxRequests := 5,
                                  adminBypass := none, stopInRedisDown := none },
                routes := [] }) 60 5 "/x" "GET" :=
  ⟨rfl,
   c7_amended badPatternMatcher none
     (some { windowSeconds := 60, maxRequests := 5,
             adminBypass := none, stopInRedisDown := none })
     "bad" badRoute [] 60 5 "/x" "GET" rfl⟩

theorem listIsPrefix_append (p r : List Char) : listIsPrefix p (p ++ r) = true := by
  induction p with
  | nil => rfl
  | cons a as ih => simp [listIsPrefix, ih]

theorem strStartsWith_append (p r : String) : strStartsWith p (p ++ r) = true :=
  listIsPrefix_append p.data r.data

theorem validateKey_cacheKey (slug : String) :
    validateKey (getCacheKey slug) = true := by
  unfold validateKey getCacheKey
  rw [strStartsWith_append]
  simp

theorem validateKey_versionKey (slug : String) :
    validateKey (getVersionKey slug) = true := by
  unfold validateKey getVersionKey
  rw [strStartsWith_append]
  simp

/-! ## C8 — cache invalidation semantics -/

/-- C8: `deleteCacheBySlug` over a healthy store issues one `del` covering
both the content key and its version marker — afterwards both are absent and
every other key is untouched; and `deletePostBySlug` on an existing post
succeeds with `ok true` and the row removed, for every cache-connection
state: store down (invalidation skipped, logged), `del` throwing
(logged, swallowed), or healthy. -/
theorem c8_cache_invalidation (slug : String) (st : CacheState) (db : DbState)
    (hdb : db slug = true) :
    (deleteCacheBySlug (.up st false) slug =
        .ok (true, .up (cacheDel st [getCacheKey slug, getVersionKey slug]) false) ∧
      cacheDel st [getCacheKey slug, getVersionKey slug] (getCacheKey slug) = false ∧
      cacheDel st [getCacheKey slug, getVersionKey slug] (getVersionKey slug) = false ∧
      (∀ k, k ≠ getCacheKey slug → k ≠ getVersionKey slug →
        cacheDel st [getCacheKey slug, getVersionKey slug] k = st k)) ∧
    (∀ conn : CacheConn, ∃ db' connOut,
      deletePostBySlug db conn slug = .ok (true, db', connOut) ∧
      db' slug = false) := by
  have h1 := validateKey_cacheKey slug
  have h2 := validateKey_versionKey slug
  constructor
  · refine ⟨?_, ?_, ?_, ?_⟩
    · unfold deleteCacheBySlug
      simp [h1, h2]
    · simp [cacheDel]
    · simp [cacheDel]
    · intro k hk1 hk2
      simp [cacheDel, hk1, hk2]
  · intro conn
    cases conn with
    | down =>
      refine ⟨fun s => if s = slug then false else db s, .down, ?_, by simp⟩
      unfold deletePostBySlug dbDeletePost deleteCacheBySlug
      simp [h1, h2, hdb]
    | up st2 fl =>
      cases fl with
      | true =>
        refine ⟨fun s => if s = slug then false else db s, .up st2 true, ?_, by simp⟩
        unfold deletePostBySlug dbDeletePost deleteCacheBySlug
        simp [h1, h2, hdb]
      | false =>
        refine ⟨fun s => if s = slug then false else db s,
          .up (cacheDel st2 [getCacheKey slug, getVersionKey slug]) false, ?_, by simp⟩
        unfold deletePostBySlug dbDeletePost deleteCacheBySlug
        simp [h1, h2, hdb]

/-- C8, witness at a concrete slug, store and table. -/
theorem c8_witness :
    (fun s => s == "post1" : DbState) "post1" = true ∧
    ((deleteCacheBySlug (.up (fun _ => true) false) "post1" =
        .ok (true, .up (cacheDel (fun _ => true)
          [getCacheKey "post1", getVersionKey "post1"]) false) ∧
      cacheDel (fun _ => true) [getCacheKey "post1", getVersionKey "post1"]
          (getCacheKey "post1") = false ∧
      cacheDel (fun _ => true) [getCacheKey "post1", getVersionKey "post1"]
          (getVersionKey "post1") = false ∧
      (∀ k, k ≠ getCacheKey "post1" → k ≠ getVersionKey "post1" →
        cacheDel (fun _ => true) [getCacheKey "post1", getVersionKey "post1"] k =
          (fun _ => true : CacheState) k)) ∧
    (∀ conn : CacheConn, ∃ db' connOut,
      deletePostBySlug (fun s => s == "post1") conn "post1" =
        .ok (true, db', connOut) ∧ db' "post1" = false)) :=
  ⟨by decide,
   c8_cache_invalidation "post1" (fun _ => true) (fun s => s == "post1") (by decide)⟩

theorem scanStep_parts (keys : List String) (pat : String → Bool)
    (live : CacheState) (cursor : Nat) :
    (scanStep keys pat live cursor).1 =
      (fun k => if k ∈ ((keys.drop cursor).take 100).filter
          (fun k => live k && pat k) then false else live k) ∧
    (scanStep keys pat live cursor).2.1 =
      (((keys.drop cursor).take 100).filter (fun k => live k && pat k)).length ∧
    (scanStep keys pat live cursor).2.2.2 =
      ((keys.drop cursor).take 100).filter (fun k => live k && pat k) := by
  by_cases hB : (((keys.drop cursor).take 100).filter
      (fun k => live k && pat k)).isEmpty = true
  · have hBnil : ((keys.drop cursor).take 100).filter
        (fun k => live k && pat k) = [] := by
      rwa [List.isEmpty_iff] at hB
    refine ⟨?_, ?_, ?_⟩ <;> (rw [scanStep]; simp [hBnil])
  · refine ⟨?_, ?_, ?_⟩ <;>
      (rw [scanStep]; simp only [hB, Bool.false_eq_true, if_false]) <;> rfl

/-- The final round: when all remaining listed keys fit in this bucket, the
round clears exactly the live matching keys of `keys.drop cursor`. -/
theorem scanStep_last (keys : List String) (pat : String → Bool)
    (live : CacheState) (cursor : Nat) (hlast : keys.length ≤ cursor + 100) :
    (scanStep keys pat live cursor).2.2.2 =
        (keys.drop cursor).filter (fun k => live k && pat k) ∧
    (scanStep keys pat live cursor).2.1 =
        ((keys.drop cursor).filter (fun k => live k && pat k)).length ∧
    ∀ k, (scanStep keys pat live cursor).1 k =
      if k ∈ (keys.drop cursor).filter (fun k => live k && pat k) then false
      else live k := by
  have htake : (keys.drop cursor).take 100 = keys.drop cursor :=
    List.take_of_length_le (by simp [List.length_drop]; omega)
  obtain ⟨h1, h2, h3⟩ := scanStep_parts keys pat live cursor
  rw [htake] at h1 h2 h3
  exact ⟨h3, h2, fun k => by rw [h1]⟩

/-- What the whole loop computes, by induction on the budget: the deleted
keys are exactly the live keys matching the pattern in the remainder of the
listing, the reported total is their number, and afterwards exactly those
keys are gone. -/
theorem scanDeleteGo_spec (keys : List String) (pat : String → Bool)
    (hnd : keys.Nodup) :
    ∀ (fuel cursor : Nat) (live : CacheState),
      keys.length ≤ cursor + 100 * fuel + 100 →
      (scanDeleteGo keys pat fuel live cursor).2.2.2 =
          (keys.drop cursor).filter (fun k => live k && pat k) ∧
      (scanDeleteGo keys pat fuel live cursor).2.1 =
          ((keys.drop cursor).filter (fun k => live k && pat k)).length ∧
      ∀ k, (scanDeleteGo keys pat fuel live cursor).1 k =
        if k ∈ (keys.drop cursor).filter (fun k => live k && pat k) then false
        else live k := by
  intro fuel
  induction fuel with
  | zero =>
    intro cursor live hle
    have hlast : keys.length ≤ cursor + 100 := by omega
    simp only [scanDeleteGo]
    exact scanStep_last keys pat live cursor hlast
  | succ f ih =>
    intro cursor live hle
    by_cases hlast : keys.length ≤ cursor + 100
    · simp only [scanDeleteGo, if_pos hlast]
      exact scanStep_last keys pat live cursor hlast
    · have hnd' : (keys.drop cursor).Nodup := (List.drop_sublist cursor keys).nodup hnd
      have hsplit : keys.drop cursor =
          (keys.drop cursor).take 100 ++ keys.drop (cursor + 100) := by
        conv_lhs => rw [← List.take_append_drop 100 (keys.drop cursor)]
        rw [List.drop_drop]
      have hdisj : ∀ k ∈ keys.drop (cursor + 100),
          k ∉ ((keys.drop cursor).take 100).filter (fun k => live k && pat k) := by
        intro k hk hkmem
        have hk' : k ∈ (keys.drop cursor).drop 100 := by
          rw [List.drop_drop]
          exact hk
        exact (List.disjoint_take_drop hnd' (le_refl 100))
          (List.mem_of_mem_filter hkmem) hk'
      have hcong : (keys.drop (cursor + 100)).filter
            (fun k => (if k ∈ ((keys.drop cursor).take 100).filter
                (fun k => live k && pat k) then false else live k) && pat k) =
          (keys.drop (cursor + 100)).filter (fun k => live k && pat k) := by
        apply List.filter_congr
        intro k hk
        rw [if_neg (hdisj k hk)]
      obtain ⟨hs1, hs2, hs3⟩ := scanStep_parts keys pat live cursor
      obtain ⟨ihd, iht, ihl⟩ := ih (cursor + 100)
        (fun k => if k ∈ ((keys.drop cursor).take 100).filter
          (fun k => live k && pat k) then false else live k) (by omega)
      rw [hcong] at ihd iht ihl
      simp only [scanDeleteGo, if_neg hlast]
      rw [hs1, hs2, hs3]
      refine ⟨?_, ?_, ?_⟩
      · rw [ihd]
        conv_rhs => rw [hsplit]
        rw [List.filter_append]
      · rw [iht]
        conv_rhs => rw [hsplit]
        rw [List.filter_append, List.length_append]
      · intro k
        rw [ihl k]
        conv_rhs => rw [hsplit]
        rw [List.filter_append]
        by_cases hk1 : k ∈ ((keys.drop cursor).take 100).filter
            (fun k => live k && pat k) <;>
          by_cases hk2 : k ∈ (keys.drop (cursor + 100)).filter
              (fun k => live k && pat k) <;>
            simp [hk1, hk2, List.mem_append]

/-- `scanDeleteLoop` = the loop with fuel `keys.length`, which is always
within budget, so the three properties hold unconditionally. -/
theorem scanDeleteLoop_spec (keys : List String) (pat : String → Bool)
    (hnd : keys.Nodup) (cursor : Nat) (live : CacheState) :
    (scanDeleteLoop keys pat live cursor).2.2.2 =
        (keys.drop cursor).filter (fun k => live k && pat k) ∧
    (scanDeleteLoop keys pat live cursor).2.1 =
        ((keys.drop cursor).filter (fun k => live k && pat k)).length ∧
    ∀ k, (scanDeleteLoop keys pat live cursor).1 k =
      if k ∈ (keys.drop cursor).filter (fun k => live k && pat k) then false
      else live k :=
  scanDeleteGo_spec keys pat hnd keys.length cursor live (by
    have h100 : keys.length ≤ 100 * keys.length + 100 := by omega
    omega)

/-! ## C9 — clearAllCache -/

/-- C9: over a reachable store with a duplicate-free key listing,
`clearAllCache` returns a success result whose total equals the number of
keys it deleted; the deleted keys are exactly the live keys carrying the
content or version prefix (each deleted once — the list is duplicate-free),
and afterwards exactly those keys are gone; over an unreachable store it
returns the `skipped` result with zero counts instead of failing. -/
theorem c9_clear_all_cache (keys : List String) (live : CacheState)
    (hnd : keys.Nodup) :
    ((clearAllCache (.up keys live)).1.status = "success" ∧
      (clearAllCache (.up keys live)).1.total_keys_cleared =
        (clearAllCache (.up keys live)).1.keys_deleted.length ∧
      (clearAllCache (.up keys live)).1.keys_deleted.Nodup ∧
      (∀ k, k ∈ (clearAllCache (.up keys live)).1.keys_deleted ↔
        k ∈ keys ∧ live k = true ∧
          (strStartsWith BLOG_POST k = true ∨ strStartsWith BLOG_VER k = true)) ∧
      (∀ k, (clearAllCache (.up keys live)).2.liveOf k =
        if k ∈ (clearAllCache (.up keys live)).1.keys_deleted then false
        else live k)) ∧
    clearAllCache .down =
      ({ status := "skipped", total_keys_cleared := 0, keys_deleted := [],
         batches_processed := 0 }, .down) := by
  refine ⟨?_, rfl⟩
  obtain ⟨d1eq, t1eq, l1eq⟩ :=
    scanDeleteLoop_spec keys (fun k => strStartsWith BLOG_POST k) hnd 0 live
  rw [List.drop_zero] at d1eq t1eq l1eq
  obtain ⟨d2eq, t2eq, l2eq⟩ :=
    scanDeleteLoop_spec keys (fun k => strStartsWith BLOG_VER k) hnd 0
      (scanDeleteLoop keys (fun k => strStartsWith BLOG_POST k) live 0).1
  rw [List.drop_zero] at d2eq t2eq l2eq
  have hcong2 : keys.filter (fun k =>
      (scanDeleteLoop keys (fun k => strStartsWith BLOG_POST k) live 0).1 k &&
        strStartsWith BLOG_VER k) =
      keys.filter (fun k =>
        (if k ∈ keys.filter (fun k => live k && strStartsWith BLOG_POST k)
          then false else live k) && strStartsWith BLOG_VER k) := by
    apply List.filter_congr
    intro k hk
    rw [l1eq k]
  rw [hcong2] at d2eq t2eq l2eq
  set F1 := keys.filter (fun k => live k && strStartsWith BLOG_POST k) with hF1
  set F2 := keys.filter (fun k =>
    (if k ∈ F1 then false else live k) && strStartsWith BLOG_VER k) with hF2
  have hkd : (clearAllCache (.up keys live)).1.keys_deleted = F1 ++ F2 := by
    show (scanDeleteLoop keys (fun k => strStartsWith BLOG_POST k) live 0).2.2.2 ++
        (scanDeleteLoop keys (fun k => strStartsWith BLOG_VER k)
          (scanDeleteLoop keys (fun k => strStartsWith BLOG_POST k) live 0).1
          0).2.2.2 = F1 ++ F2
    rw [d1eq, d2eq]
  have htot : (clearAllCache (.up keys live)).1.total_keys_cleared =
      F1.length + F2.length := by
    show (scanDeleteLoop keys (fun k => strStartsWith BLOG_POST k) live 0).2.1 +
        (scanDeleteLoop keys (fun k => strStartsWith BLOG_VER k)
          (scanDeleteLoop keys (fun k => strStartsWith BLOG_POST k) live 0).1
          0).2.1 = F1.length + F2.length
    rw [t1eq, t2eq]
  have hlive : ∀ k, (clearAllCache (.up keys live)).2.liveOf k =
      if k ∈ F2 then false else if k ∈ F1 then false else live k := by
    intro k
    show (scanDeleteLoop keys (fun k => strStartsWith BLOG_VER k)
        (scanDeleteLoop keys (fun k => strStartsWith BLOG_POST k) live 0).1
        0).1 k = _
    rw [l2eq k, l1eq k]
  refine ⟨rfl, ?_, ?_, ?_, ?_⟩
  · rw [htot, hkd, List.length_append]
  · rw [hkd]
    refine (hnd.filter _).append (hnd.filter _) ?_
    intro k hk1 hk2
    rw [hF2] at hk2
    obtain ⟨_, hq⟩ := List.mem_filter.mp hk2
    rw [if_pos hk1] at hq
    simp at hq
  · intro k
    rw [hkd]
    simp only [List.mem_append]
    constructor
    · rintro (hk1 | hk2)
      · obtain ⟨hk, hlp⟩ := List.mem_filter.mp hk1
        obtain ⟨hl, hp⟩ : live k = true ∧ strStartsWith BLOG_POST k = true := by
          simpa using hlp
        exact ⟨hk, hl, Or.inl hp⟩
      · obtain ⟨hk, hqv⟩ := List.mem_filter.mp hk2
        obtain ⟨hq, hv⟩ : (if k ∈ F1 then false else live k) = true ∧
            strStartsWith BLOG_VER k = true := by simpa using hqv
        by_cases hmem : k ∈ F1
        · rw [if_pos hmem] at hq
          cases hq
        · rw [if_neg hmem] at hq
          exact ⟨hk, hq, Or.inr hv⟩
    · rintro ⟨hk, hl, hp | hv⟩
      · exact Or.inl (List.mem_filter.mpr ⟨hk, by rw [hl, hp]; rfl⟩)
      · by_cases hp2 : strStartsWith BLOG_POST k = true
        · exact Or.inl (List.mem_filter.mpr ⟨hk, by rw [hl, hp2]; rfl⟩)
        · refine Or.inr (List.mem_filter.mpr ⟨hk, ?_⟩)
          have hmem : k ∉ F1 := by
            rw [hF1]
            intro hmem
            obtain ⟨_, hlp⟩ := List.mem_filter.mp hmem
            obtain ⟨_, hp'⟩ : live k = true ∧ strStartsWith BLOG_POST k = true := by
              simpa using hlp
            exact hp2 hp'
          rw [if_neg hmem, hl, hv]
          rfl
  · intro k
    rw [hlive k, hkd]
    by_cases hk1 : k ∈ F1 <;> by_cases hk2 : k ∈ F2 <;>
      simp [hk1, hk2, List.mem_append]

/-- C9, witness on a concrete three-key store. -/
theorem c9_witness :
    ([getCacheKey "a", getVersionKey "a", "other"] : List String).Nodup ∧
    (((clearAllCache (.up [getCacheKey "a", getVersionKey "a", "other"]
        (fun _ => true))).1.status = "success" ∧
      (clearAllCache (.up [getCacheKey "a", getVersionKey "a", "other"]
        (fun _ => true))).1.total_keys_cleared =
        (clearAllCache (.up [getCacheKey "a", getVersionKey "a", "other"]
          (fun _ => true))).1.keys_deleted.length ∧
      (clearAllCache (.up [getCacheKey "a", getVersionKey "a", "other"]
        (fun _ => true))).1.keys_deleted.Nodup ∧
      (∀ k, k ∈ (clearAllCache (.up [getCacheKey "a", getVersionKey "a", "other"]
          (fun _ => true))).1.keys_deleted ↔
        k ∈ [getCacheKey "a", getVersionKey "a", "other"] ∧
          (fun _ => true : CacheState) k = true ∧
          (strStartsWith BLOG_POST k = true ∨ strStartsWith BLOG_VER k = true)) ∧
      (∀ k, (clearAllCache (.up [getCacheKey "a", getVersionKey "a", "other"]
          (fun _ => true))).2.liveOf k =
        if k ∈ (clearAllCache (.up [getCacheKey "a", getVersionKey "a", "other"]
            (fun _ => true))).1.keys_deleted then false
        else (fun _ => true : CacheState) k)) ∧
    clearAllCache .down =
      ({ status := "skipped", total_keys_cleared := 0, keys_deleted := [],
         batches_processed := 0 }, .down)) :=
  ⟨by decide,
   c9_clear_all_cache [getCacheKey "a", getVersionKey "a", "other"]
     (fun _ => true) (by decide)⟩

end Portfolio
